import Mathlib

/-!
Shallow embedding of the tages file-transfer service core: the storage
engine (SaveFile / GetFile / ListFiles over an in-memory catalog and a
flat-file blob directory) and the admission-controlled transfer server
(UploadFile / DownloadFile / ListFiles handlers with try-acquire
semaphores).  Machine integers are modelled as `Int`; Go's `int` is
64-bit and none of the arithmetic reachable from int32 inputs can
overflow it, while the one `int32` conversion (the `totalCount` result)
is modelled explicitly by `int32ofInt`.  Fallible operations return
`Option`; a `none` from `listFiles` models a runtime panic
(`makeslice: cap out of range`).
-/

namespace Tages

/-- Raw blob content: a byte sequence (each entry conceptually < 256;
no claim depends on the bound). -/
abbrev Bytes := List Nat

/-- The filesystem visible to the storage engine: a finite map from
path to file content, as an association list. -/
abbrev Disk := List (String × Bytes)

/-- Association-list lookup (models Go map indexing / file lookup by path). -/
def assocGet {α : Type} : List (String × α) → String → Option α
  | [], _ => none
  | (k, v) :: rest, key => if k = key then some v else assocGet rest key

/-- Association-list update (models Go map assignment / file write:
replaces the binding for the key if present, otherwise appends it). -/
def assocSet {α : Type} : List (String × α) → String → α → List (String × α)
  | [], key, v => [(key, v)]
  | (k, w) :: rest, key, v =>
    if k = key then (k, v) :: rest else (k, w) :: assocSet rest key v

/-- `filepath.Join(dir, name)` for the clean, non-empty components this
program produces (a fixed directory and a decimal identifier). -/
def pathJoin (dir name : String) : String := dir ++ "/" ++ name

/-- The character for a single decimal digit (ASCII '0' + d). -/
def digitChar (d : Nat) : Char := Char.ofNat (48 + d)

/-- Decimal digit list of a natural number, most significant first.
Together with `fmtInt` this embeds Go's `fmt.Sprintf("%d", n)`. -/
def natDigits (n : Nat) : List Char :=
  if n < 10 then [digitChar n]
  else natDigits (n / 10) ++ [digitChar (n % 10)]
termination_by n
decreasing_by exact Nat.div_lt_self (by omega) (by omega)

/-- `fmt.Sprintf("%d", n)` for a (64-bit) integer: optional minus sign
followed by the decimal digits of the magnitude. -/
def fmtInt (n : Int) : String :=
  if n < 0 then String.mk ('-' :: natDigits n.natAbs)
  else String.mk (natDigits n.toNat)

/-- `pb.FileMetadata`: the catalog entry for one stored blob. -/
structure FileMetadata where
  id : String
  filename : String
  size : Int
  createdAt : Int
  updatedAt : Int
deriving Repr, DecidableEq

/-- The storage engine's state: the fixed blob directory, the in-memory
catalog (Go `map[string]*pb.FileMetadata`, as an association list whose
order stands for the map's unspecified iteration order), and the
filesystem it writes blobs into. -/
structure StorageState where
  directory : String
  files : List (String × FileMetadata)
  disk : Disk
deriving Repr, DecidableEq

/-- `NewStorage(directory)`: empty catalog; the ambient filesystem
content is an environment parameter. -/
def newStorage (directory : String) (disk : Disk) : StorageState :=
  { directory := directory, files := [], disk := disk }

/-- `storage.SaveFile(filename, data)`.  The two wall-clock readings
(`time.Now().UnixNano()` for the identifier, `time.Now().Unix()` for the
timestamps) and the outcome of `ioutil.WriteFile` are environment
parameters: `writeErr = some d` means the write failed leaving the
filesystem in state `d` (possibly holding a partial blob), `none` means
it succeeded, storing `data` at the blob path. -/
def saveFile (s : StorageState) (filename : String) (data : Bytes)
    (nowNano nowSec : Int) (writeErr : Option Disk) :
    Option String × StorageState :=
  let id := fmtInt nowNano
  let path := pathJoin s.directory id
  match writeErr with
  | some d => (none, { s with disk := d })
  | none =>
    let metadata : FileMetadata :=
      { id := id, filename := filename, size := (data.length : Int),
        createdAt := nowSec, updatedAt := nowSec }
    (some id,
      { s with disk := assocSet s.disk path data,
               files := assocSet s.files id metadata })

/-- `storage.GetFile(id)`: reads the blob from the filesystem (not the
catalog); `none` models the `os.ReadFile` error when no file exists at
the path. -/
def getFile (s : StorageState) (id : String) : Option Bytes :=
  assocGet s.disk (pathJoin s.directory id)

/-- Go's `int32(n)` conversion (two's-complement wrap-around). -/
def int32ofInt (n : Int) : Int := (n + 2 ^ 31) % 2 ^ 32 - 2 ^ 31

/-- The collection loop of `storage.ListFiles`: walks the catalog with a
running index `i`, keeps the entries whose index lies in
`[startI, endI)`, and breaks as soon as the incremented index reaches
`endI`. -/
def listLoop : List FileMetadata → Int → Int → Int → List FileMetadata → List FileMetadata
  | [], _, _, _, acc => acc
  | f :: rest, i, startI, endI, acc =>
    let acc' := if startI ≤ i ∧ i < endI then acc ++ [f] else acc
    if endI ≤ i + 1 then acc' else listLoop rest (i + 1) startI endI acc'

/-- `storage.ListFiles(pageSize, pageNumber)` on a catalog snapshot
(the association list's value order stands for the map's iteration
order).  `start = pageSize * (pageNumber - 1)`, `end` is clamped down
to the catalog size, and the slice is allocated with capacity
`end - start`: a negative capacity makes `make` panic at runtime,
modelled as `none`.  The Go function's error result is always nil, so
success carries just the page and the `int32` total count. -/
def listFiles (catalog : List FileMetadata) (pageSize pageNumber : Int) :
    Option (List FileMetadata × Int) :=
  let startI := pageSize * (pageNumber - 1)
  let endRaw := startI + pageSize
  let endI := if endRaw > (catalog.length : Int) then (catalog.length : Int) else endRaw
  if endI - startI < 0 then none
  else some (listLoop catalog 0 startI endI [], int32ofInt (catalog.length : Int))

/-- The number of pages needed to cover `n` catalog entries at `p`
entries per page: `ceil(n / p)`. -/
def numPages (n p : Nat) : Nat := (n + p - 1) / p

/-- The entry list of one `ListFiles` page (the empty list if the call
panics). -/
def pageEntries (catalog : List FileMetadata) (pageSize pageNumber : Int) :
    List FileMetadata :=
  ((listFiles catalog pageSize pageNumber).map Prod.fst).getD []

/-! ### Transfer server -/

def MaxUploadConcurrency : Nat := 10

def MaxDownloadConcurrency : Nat := 10

def MaxListConcurrency : Nat := 100

/-- The server value: whether its storage interface is nil, and the
capacity of each admission-semaphore channel (`none` models a nil
channel, as in the zero value `server` struct). -/
structure Server where
  storageNil : Bool
  uploadCap : Option Nat
  downloadCap : Option Nat
  listCap : Option Nat
deriving Repr, DecidableEq

/-- `NewServer(storage)`: non-nil storage, semaphore channels of the
three fixed capacities. -/
def newServer : Server :=
  { storageNil := false,
    uploadCap := some MaxUploadConcurrency,
    downloadCap := some MaxDownloadConcurrency,
    listCap := some MaxListConcurrency }

/-- The server value `Serve` actually registers with the gRPC server: a
fresh zero-value `server` struct (nil storage, nil semaphore channels),
not the receiver `Serve` was called on. -/
def serveRegisteredServer : Server :=
  { storageNil := true, uploadCap := none, downloadCap := none, listCap := none }

/-- The `select`-with-`default` try-acquire on a semaphore channel with
`inflight` slots taken: a send on a nil channel can never proceed, and a
send on a buffered channel proceeds exactly when the buffer is not
full, so the default (rejection) branch is taken otherwise. -/
def tryAcquire (cap : Option Nat) (inflight : Nat) : Bool :=
  match cap with
  | none => false
  | some c => decide (inflight < c)

/-- One message of the client upload stream (`UploadFileRequest`):
the oneof carries either file info or a chunk of bytes. -/
inductive UploadMsg where
  | info (filename contentType : String)
  | chunk (data : Bytes)
deriving Repr, DecidableEq

/-- `req.GetInfo()`: the info payload, or nil for any other message. -/
def getInfo : UploadMsg → Option (String × String)
  | .info fn ct => some (fn, ct)
  | .chunk _ => none

/-- `req.GetChunkData()`: the chunk payload, or nil (empty) for any
other message. -/
def getChunkData : UploadMsg → Bytes
  | .info _ _ => []
  | .chunk d => d

/-- The gRPC status codes this server produces. -/
inductive GrpcCode where
  | resourceExhausted
  | invalidArgument
  | notFound
  | internalError
deriving Repr, DecidableEq

/-- Outcome of an `UploadFile` call. -/
inductive UploadOutcome where
  /-- A `status.Error` with the given code was returned. -/
  | err (code : GrpcCode)
  /-- The first `stream.Recv` failed (stream closed before any
  message); the raw receive error is returned. -/
  | recvFailed
  /-- `SendAndClose` with the response fields. -/
  | ok (id filename : String) (size createdAt : Int)
deriving Repr, DecidableEq

/-- Result of an `UploadFile` call: outcome, storage state after the
call, number of stream messages consumed, and the semaphore occupancy
after the call returns (the deferred release has run). -/
structure UploadRet where
  outcome : UploadOutcome
  storage : StorageState
  consumed : Nat
  inflight : Nat
deriving Repr, DecidableEq

/-- `server.UploadFile(stream)`.  The stream is the finite list of
messages the client sends before closing (each `Recv` yields the next
one, then `io.EOF`).  `nowNano`, `nowSec` and the write outcome are the
storage engine's environment parameters, `respNow` the handler's own
`time.Now().Unix()` for the response.  `none` models a panic: the nil
storage interface being invoked. -/
def uploadFile (sv : Server) (inflight : Nat) (msgs : List UploadMsg)
    (st : StorageState) (nowNano nowSec respNow : Int)
    (writeErr : Option Disk) : Option UploadRet :=
  if tryAcquire sv.uploadCap inflight then
    match msgs with
    | [] => some ⟨.recvFailed, st, 0, inflight⟩
    | first :: rest =>
      match getInfo first with
      | none => some ⟨.err .invalidArgument, st, 1, inflight⟩
      | some (filename, _contentType) =>
        let data := (rest.map getChunkData).flatten
        if sv.storageNil then none
        else
          match saveFile st filename data nowNano nowSec writeErr with
          | (none, st') =>
            some ⟨.err .internalError, st', 1 + rest.length, inflight⟩
          | (some id, st') =>
            some ⟨.ok id filename (data.length : Int) respNow, st',
                  1 + rest.length, inflight⟩
  else some ⟨.err .resourceExhausted, st, 0, inflight⟩

/-- The download chunk size: 1 MiB. -/
def chunkSize : Nat := 1024 * 1024

/-- The chunking loop of `DownloadFile`: `data[i:min(i+chunkSize,len)]`
for `i = 0, chunkSize, 2*chunkSize, ...` while `i < len`. -/
def chunks (data : Bytes) : List Bytes :=
  if data = [] then []
  else data.take chunkSize :: chunks (data.drop chunkSize)
termination_by data.length
decreasing_by
  rename_i h
  have hlen : 0 < data.length := List.length_pos.mpr h
  have : data.length - chunkSize < data.length := by
    have : 0 < chunkSize := by norm_num [chunkSize]
    omega
  simpa using this

/-- Outcome of a `DownloadFile` call. -/
inductive DownloadOutcome where
  | err (code : GrpcCode)
  | ok
deriving Repr, DecidableEq

/-- Result of a `DownloadFile` call: outcome, the chunks sent on the
response stream in send order, and the semaphore occupancy after the
deferred release. -/
structure DownloadRet where
  outcome : DownloadOutcome
  sent : List Bytes
  inflight : Nat
deriving Repr, DecidableEq

/-- `server.DownloadFile(req, stream)`.  Every `stream.Send` is modelled
as accepted (a midstream send failure would only truncate `sent` and
abort the call).  `none` models the nil-storage panic. -/
def downloadFile (sv : Server) (inflight : Nat) (id : String)
    (st : StorageState) : Option DownloadRet :=
  if tryAcquire sv.downloadCap inflight then
    if sv.storageNil then none
    else
      match getFile st id with
      | none => some ⟨.err .notFound, [], inflight⟩
      | some data => some ⟨.ok, chunks data, inflight⟩
  else some ⟨.err .resourceExhausted, [], inflight⟩

/-- Outcome of a `ListFiles` call. -/
inductive ListOutcome where
  | err (code : GrpcCode)
  | ok (files : List FileMetadata) (totalCount : Int)
deriving Repr, DecidableEq

/-- Result of a `ListFiles` call. -/
structure ListRet where
  outcome : ListOutcome
  inflight : Nat
deriving Repr, DecidableEq

/-- `server.ListFiles(ctx, req)`.  Delegates to the storage engine over
the catalog snapshot; `none` models a panic (nil storage, or the
storage engine's negative-capacity `make` panic propagating).  The
storage engine's error result is always nil, so the handler's
internal-error branch is dead code. -/
def listFilesRPC (sv : Server) (inflight : Nat) (pageSize pageNumber : Int)
    (st : StorageState) : Option ListRet :=
  if tryAcquire sv.listCap inflight then
    if sv.storageNil then none
    else
      match listFiles (st.files.map Prod.snd) pageSize pageNumber with
      | none => none
      | some (files, totalCount) => some ⟨.ok files totalCount, inflight⟩
  else some ⟨.err .resourceExhausted, inflight⟩

/-- The storage states reachable through the engine's interface: a
fresh `NewStorage` over any ambient filesystem, followed by any
sequence of `SaveFile` calls (`GetFile` and `ListFiles` do not modify
the state). -/
inductive Reachable : StorageState → Prop where
  | init (directory : String) (disk : Disk) : Reachable (newStorage directory disk)
  | save (s : StorageState) (filename : String) (data : Bytes)
      (nowNano nowSec : Int) (writeErr : Option Disk) :
      Reachable s → Reachable (saveFile s filename data nowNano nowSec writeErr).2

/-! ### Helper lemmas -/

theorem assocGet_assocSet_self {α : Type} (l : List (String × α)) (k : String) (v : α) :
    assocGet (assocSet l k v) k = some v := by
  induction l with
  | nil => simp [assocGet, assocSet]
  | cons hd tl ih =>
    obtain ⟨k', v'⟩ := hd
    by_cases h : k' = k
    · simp [assocGet, assocSet, h]
    · simp [assocGet, assocSet, h, ih]

theorem mem_assocSet {α : Type} (l : List (String × α)) (k : String) (v : α) :
    ∀ x ∈ assocSet l k v, x ∈ l ∨ x = (k, v) := by
  induction l with
  | nil => simp [assocSet]
  | cons hd tl ih =>
    obtain ⟨k', v'⟩ := hd
    intro x hx
    by_cases h : k' = k
    · simp only [assocSet, if_pos h, List.mem_cons] at hx
      rcases hx with hx | hx
      · right; rw [hx, h]
      · left; exact List.mem_cons_of_mem _ hx
    · simp only [assocSet, if_neg h, List.mem_cons] at hx
      rcases hx with hx | hx
      · left; rw [hx]; exact List.mem_cons_self _ _
      · rcases ih x hx with h' | h'
        · left; exact List.mem_cons_of_mem _ h'
        · right; exact h'

/-! ### C1: save/get round trip -/

/-- C1: if `SaveFile(f, data)` succeeds and returns `id`, then
`GetFile(id)` on the resulting storage state succeeds and returns
exactly `data`. -/
theorem saveFile_getFile_roundtrip (st : StorageState) (filename : String)
    (data : Bytes) (nowNano nowSec : Int) (id : String)
    (h : (saveFile st filename data nowNano nowSec none).1 = some id) :
    getFile (saveFile st filename data nowNano nowSec none).2 id = some data := by
  have hid : id = fmtInt nowNano := by
    simpa [saveFile] using h.symm
  subst hid
  simp [saveFile, getFile, assocGet_assocSet_self]

/-- C1 witness: the round trip at a concrete store, filename, content
and clock reading. -/
theorem saveFile_getFile_roundtrip_witness :
    getFile (saveFile (newStorage "dir" []) "a.txt" [104, 105] 42 42 none).2
      (fmtInt 42) = some [104, 105] :=
  saveFile_getFile_roundtrip (newStorage "dir" []) "a.txt" [104, 105] 42 42
    (fmtInt 42) rfl

/-! ### C6: failed blob write leaves the catalog unchanged -/

/-- C6: when the blob write inside `SaveFile` fails, `SaveFile` returns
the I/O error (no id) and the catalog is exactly as it was before the
call, whatever state the failed write left the filesystem in. -/
theorem saveFile_write_failure_leaves_catalog_unchanged (st : StorageState)
    (filename : String) (data : Bytes) (nowNano nowSec : Int) (d : Disk) :
    (saveFile st filename data nowNano nowSec (some d)).1 = none ∧
    (saveFile st filename data nowNano nowSec (some d)).2.files = st.files :=
  ⟨rfl, rfl⟩

/-! ### C4: upload stream starting with a chunk is rejected -/

/-- C4: an admitted upload whose first message is a chunk (not file
info) terminates with an invalid-argument error, after consuming
exactly one message, leaving the storage state (catalog and disk)
untouched, and releasing its admission slot. -/
theorem uploadFile_rejects_chunk_first_message (sv : Server) (inflight : Nat)
    (d : Bytes) (rest : List UploadMsg) (st : StorageState)
    (nowNano nowSec respNow : Int) (writeErr : Option Disk)
    (hadm : tryAcquire sv.uploadCap inflight = true) :
    uploadFile sv inflight (.chunk d :: rest) st nowNano nowSec respNow writeErr
      = some ⟨.err .invalidArgument, st, 1, inflight⟩ := by
  simp [uploadFile, hadm, getInfo]

/-- C4 witness: a fresh standard server rejects a stream opening with a
chunk payload. -/
theorem uploadFile_rejects_chunk_first_message_witness :
    uploadFile newServer 0 [.chunk [1, 2], .info "x" "t"] (newStorage "dir" [])
      7 7 7 none = some ⟨.err .invalidArgument, newStorage "dir" [], 1, 0⟩ :=
  uploadFile_rejects_chunk_first_message newServer 0 [1, 2] [.info "x" "t"]
    (newStorage "dir" []) 7 7 7 none (by decide)

/-! ### C10: Serve registers a zero-value server -/

/-- C10: the server value registered by `Serve` is a fresh zero-value
`server` (nil storage, nil semaphore channels), not the receiver; on
it, every `UploadFile`, `DownloadFile` and `ListFiles` call takes the
default branch of the admission select (a send on a nil channel never
proceeds) and is rejected with a resource-exhaustion error, consuming
no stream messages, sending no chunks and never touching the storage
state. -/
theorem serve_registers_zero_value_server_rejecting_all_calls :
    serveRegisteredServer
      = { storageNil := true, uploadCap := none, downloadCap := none,
          listCap := none } ∧
    (∀ inflight msgs st nowNano nowSec respNow writeErr,
      uploadFile serveRegisteredServer inflight msgs st nowNano nowSec respNow
          writeErr = some ⟨.err .resourceExhausted, st, 0, inflight⟩) ∧
    (∀ inflight id st,
      downloadFile serveRegisteredServer inflight id st
        = some ⟨.err .resourceExhausted, [], inflight⟩) ∧
    (∀ inflight pageSize pageNumber st,
      listFilesRPC serveRegisteredServer inflight pageSize pageNumber st
        = some ⟨.err .resourceExhausted, inflight⟩) :=
  ⟨rfl, fun _ _ _ _ _ _ _ => rfl, fun _ _ _ => rfl, fun _ _ _ _ => rfl⟩

/-! ### C2: degenerate pagination windows -/

/-- C2 (refuting evaluation): `ListFiles` does not always return
normally on degenerate windows.  When the page's start index lies
beyond the catalog size (here: an empty catalog with `pageSize = 1`,
`pageNumber = 2`, so `start = 1 > 0`), and likewise for a negative
`pageSize`, the slice capacity `end - start` is negative and the
allocation panics; only in-range degenerate windows (for example
`pageNumber = 0`) fall through to the clamping arithmetic and yield an
empty page. -/
theorem listFiles_panics_on_degenerate_windows :
    listFiles [] 1 2 = none ∧
    listFiles [⟨"7", "a", 1, 0, 0⟩] (-1) 1 = none ∧
    listFiles [⟨"7", "a", 1, 0, 0⟩] 3 0 = some ([], 1) := by
  refine ⟨rfl, rfl, ?_⟩
  simp [listFiles, listLoop, int32ofInt]

/-! ### C9: updatedAt equals createdAt in every reachable catalog -/

/-- C9: every catalog entry of every reachable storage state satisfies
`updatedAt == createdAt`: entries are only ever inserted by `SaveFile`,
which sets both fields to the same clock reading, and no operation
modifies or removes an existing entry. -/
theorem catalog_entries_updatedAt_eq_createdAt (s : StorageState)
    (h : Reachable s) :
    ∀ e ∈ s.files, e.2.updatedAt = e.2.createdAt := by
  induction h with
  | init directory disk => simp [newStorage]
  | save s filename data nowNano nowSec writeErr _ ih =>
    intro e he
    cases writeErr with
    | some d => exact ih e (by simpa [saveFile] using he)
    | none =>
      simp only [saveFile] at he
      rcases mem_assocSet _ _ _ e he with h' | h'
      · exact ih e h'
      · rw [h']

/-- C9 witness: the invariant evaluated on a concrete reachable state
(one successful save on a fresh store). -/
theorem catalog_entries_updatedAt_eq_createdAt_witness :
    ((saveFile (newStorage "dir" []) "a" [1] 7 9 none).2.files.all
      (fun e => e.2.updatedAt == e.2.createdAt)) = true := by
  have h := catalog_entries_updatedAt_eq_createdAt _
    (Reachable.save (newStorage "dir" []) "a" [1] 7 9 none
      (Reachable.init "dir" []))
  rw [List.all_eq_true]
  intro e he
  exact beq_iff_eq.mpr (h e he)

/-! ### C8: admission pools -/

/-- C8: admission for each of the three operations is try-acquire
against its fixed-capacity pool (10 uploads, 10 downloads, 100 list
calls).  A call arriving when its pool is full (capacity slots already
in flight, as happens to the last of capacity + 1 simultaneous calls)
is rejected immediately with a resource-exhaustion error, with nothing
consumed, sent or stored; an admitted call never reports
resource-exhaustion, and every call, by any termination path, leaves
the pool occupancy as it found it (its slot is released), so a fresh
call of the same kind arriving afterwards is admitted again. -/
theorem admission_pools_try_acquire_and_release :
    ((∀ msgs st nowNano nowSec respNow writeErr,
      uploadFile newServer MaxUploadConcurrency msgs st nowNano nowSec respNow
          writeErr
        = some ⟨.err .resourceExhausted, st, 0, MaxUploadConcurrency⟩) ∧
    (∀ inflight msgs st nowNano nowSec respNow writeErr r,
      inflight < MaxUploadConcurrency →
      uploadFile newServer inflight msgs st nowNano nowSec respNow writeErr
          = some r →
      r.outcome ≠ .err .resourceExhausted ∧ r.inflight = inflight)) ∧
    ((∀ id st,
      downloadFile newServer MaxDownloadConcurrency id st
        = some ⟨.err .resourceExhausted, [], MaxDownloadConcurrency⟩) ∧
    (∀ inflight id st r,
      inflight < MaxDownloadConcurrency →
      downloadFile newServer inflight id st = some r →
      r.outcome ≠ .err .resourceExhausted ∧ r.inflight = inflight)) ∧
    ((∀ pageSize pageNumber st,
      listFilesRPC newServer MaxListConcurrency pageSize pageNumber st
        = some ⟨.err .resourceExhausted, MaxListConcurrency⟩) ∧
    (∀ inflight pageSize pageNumber st r,
      inflight < MaxListConcurrency →
      listFilesRPC newServer inflight pageSize pageNumber st = some r →
      r.outcome ≠ .err .resourceExhausted ∧ r.inflight = inflight)) := by
  refine ⟨⟨?_, ?_⟩, ⟨?_, ?_⟩, ⟨?_, ?_⟩⟩
  · intro msgs st nowNano nowSec respNow writeErr
    simp [uploadFile, tryAcquire, newServer]
  · intro inflight msgs st nowNano nowSec respNow writeErr r hlt hr
    have hadm : tryAcquire newServer.uploadCap inflight = true := by
      simp [tryAcquire, newServer]; exact hlt
    rw [uploadFile.eq_def, if_pos hadm] at hr
    match msgs with
    | [] => cases hr; exact ⟨by simp, rfl⟩
    | .chunk d :: rest => simp [getInfo] at hr; cases hr; exact ⟨by simp, rfl⟩
    | .info fn ct :: rest =>
      simp only [getInfo, newServer] at hr
      rcases h : saveFile st fn ((rest.map getChunkData).flatten) nowNano nowSec
          writeErr with ⟨oid, st'⟩
      rw [h] at hr
      match oid with
      | none => cases hr; exact ⟨by simp, rfl⟩
      | some id => cases hr; exact ⟨by simp, rfl⟩
  · intro id st
    simp [downloadFile, tryAcquire, newServer]
  · intro inflight id st r hlt hr
    have hadm : tryAcquire newServer.downloadCap inflight = true := by
      simp [tryAcquire, newServer]; exact hlt
    rw [downloadFile.eq_def, if_pos hadm] at hr
    simp only [newServer, Bool.false_eq_true, if_neg] at hr
    rcases h : getFile st id with _ | data
    · rw [h] at hr; cases hr; exact ⟨by simp, rfl⟩
    · rw [h] at hr; cases hr; exact ⟨by simp, rfl⟩
  · intro pageSize pageNumber st
    simp [listFilesRPC, tryAcquire, newServer]
  · intro inflight pageSize pageNumber st r hlt hr
    have hadm : tryAcquire newServer.listCap inflight = true := by
      simp [tryAcquire, newServer]; exact hlt
    rw [listFilesRPC.eq_def, if_pos hadm] at hr
    simp only [newServer, Bool.false_eq_true, if_neg] at hr
    rcases h : listFiles (st.files.map Prod.snd) pageSize pageNumber with _ | ⟨files, tc⟩
    · rw [h] at hr; cases hr
    · rw [h] at hr; cases hr; exact ⟨by simp, rfl⟩

/-- C8 witness: at full occupancy the eleventh simultaneous upload is
rejected; at the occupancy left after all calls return (here zero,
i.e. every slot released), a fresh upload is admitted (here: it fails
for a different reason, an empty stream). -/
theorem admission_pools_try_acquire_and_release_witness :
    (uploadFile newServer 10 [] (newStorage "dir" []) 0 0 0 none
      = some ⟨.err .resourceExhausted, newStorage "dir" [], 0, 10⟩) ∧
    (⟨.recvFailed, newStorage "dir" [], 0, 0⟩ : UploadRet).outcome
      ≠ .err .resourceExhausted ∧
    (⟨.recvFailed, newStorage "dir" [], 0, 0⟩ : UploadRet).inflight = 0 := by
  refine ⟨?_, ?_⟩
  · exact admission_pools_try_acquire_and_release.1.1 [] (newStorage "dir" [])
      0 0 0 none
  · exact admission_pools_try_acquire_and_release.1.2 0 [] (newStorage "dir" [])
      0 0 0 none ⟨.recvFailed, newStorage "dir" [], 0, 0⟩ (by decide) rfl

/-! ### C5: download chunking -/

theorem chunks_flatten (data : Bytes) : (chunks data).flatten = data := by
  induction data using chunks.induct with
  | case1 => simp [chunks]
  | case2 data hne ih =>
    rw [chunks, if_neg hne, List.flatten_cons, ih, List.take_append_drop]

theorem chunks_dropLast_length (data : Bytes) :
    ∀ c ∈ (chunks data).dropLast, c.length = chunkSize := by
  induction data using chunks.induct with
  | case1 => simp [chunks]
  | case2 data hne ih =>
    rw [chunks, if_neg hne]
    rcases h : chunks (data.drop chunkSize) with _ | ⟨c0, cs⟩
    · simp
    · rw [List.dropLast_cons_of_ne_nil (by simp [h])]
      intro c hc
      rcases List.mem_cons.mp hc with hc | hc
      · rw [hc, List.length_take]
        have hdrop : data.drop chunkSize ≠ [] := by
          intro hd
          rw [hd] at h
          simp [chunks] at h
        have : chunkSize < data.length := by
          by_contra hge
          exact hdrop (List.drop_eq_nil_of_le (by omega))
        omega
      · exact ih c (h ▸ hc)

theorem chunks_mem_bounds (data : Bytes) :
    ∀ c ∈ chunks data, c.length ≤ chunkSize ∧ c ≠ [] := by
  induction data using chunks.induct with
  | case1 => simp [chunks]
  | case2 data hne ih =>
    rw [chunks, if_neg hne]
    intro c hc
    rcases List.mem_cons.mp hc with hc | hc
    · subst hc
      refine ⟨by simp [List.length_take], ?_⟩
      intro htake
      rcases List.take_eq_nil_iff.mp htake with h0 | h0
      · exact absurd h0 (by norm_num [chunkSize])
      · exact hne h0
    · exact ih c hc

/-- C5: an admitted download of a blob that `GetFile` returns sends the
blob as a sequence of chunks in strict sequential order: their
concatenation in send order is exactly the blob, every chunk except
possibly the last is exactly 1 MiB (1048576 bytes), every chunk is at
most 1 MiB and non-empty, and a non-empty blob yields at least one
chunk. -/
theorem downloadFile_chunk_fidelity (sv : Server) (inflight : Nat)
    (id : String) (st : StorageState) (data : Bytes) (r : DownloadRet)
    (hadm : tryAcquire sv.downloadCap inflight = true)
    (hsn : sv.storageNil = false)
    (hget : getFile st id = some data)
    (hr : downloadFile sv inflight id st = some r) :
    r.outcome = .ok ∧
    r.sent.flatten = data ∧
    (∀ c ∈ r.sent.dropLast, c.length = 1048576) ∧
    (∀ c ∈ r.sent, c.length ≤ 1048576 ∧ c ≠ []) ∧
    (data ≠ [] → r.sent ≠ []) := by
  rw [downloadFile, if_pos hadm, hsn, if_neg (by simp), hget] at hr
  cases hr
  have hcs : chunkSize = 1048576 := by norm_num [chunkSize]
  refine ⟨rfl, chunks_flatten data, ?_, ?_, ?_⟩
  · intro c hc
    rw [← hcs]
    exact chunks_dropLast_length data c hc
  · intro c hc
    rw [← hcs]
    exact chunks_mem_bounds data c hc
  · intro hne hchunks
    have hfl := chunks_flatten data
    rw [show (chunks data) = [] from hchunks] at hfl
    exact hne hfl.symm

/-- C5 witness: downloading a concrete three-byte blob from a concrete
store yields one short chunk carrying exactly those bytes. -/
theorem downloadFile_chunk_fidelity_witness :
    (⟨DownloadOutcome.ok, chunks [10, 20, 30], 0⟩ : DownloadRet).outcome
        = .ok ∧
    (⟨DownloadOutcome.ok, chunks [10, 20, 30], 0⟩ : DownloadRet).sent.flatten
        = [10, 20, 30] := by
  have h := downloadFile_chunk_fidelity newServer 0 "7"
    ⟨"dir", [], [(pathJoin "dir" "7", [10, 20, 30])]⟩ [10, 20, 30]
    ⟨DownloadOutcome.ok, chunks [10, 20, 30], 0⟩
    (by decide) rfl (by simp [getFile, assocGet]) rfl
  exact ⟨h.1, h.2.1⟩

/-! ### C7: identifier uniqueness -/

theorem digitChar_ne_minus : ∀ d < 10, digitChar d ≠ '-' := by decide

theorem digitChar_injOn :
    ∀ d1 < 10, ∀ d2 < 10, digitChar d1 = digitChar d2 → d1 = d2 := by decide

theorem natDigits_ne_nil (n : Nat) : natDigits n ≠ [] := by
  rw [natDigits]
  split
  · simp
  · simp

theorem natDigits_ne_minus_cons (n : Nat) : ∀ l, natDigits n ≠ '-' :: l := by
  induction n using natDigits.induct with
  | case1 n hlt =>
    intro l h
    rw [natDigits, if_pos hlt] at h
    injection h with h1 _
    exact digitChar_ne_minus n hlt h1
  | case2 n hlt ih =>
    intro l h
    rw [natDigits, if_neg hlt] at h
    rcases hd : natDigits (n / 10) with _ | ⟨c, cs⟩
    · exact natDigits_ne_nil _ hd
    · rw [hd, List.cons_append] at h
      injection h with hc _
      exact ih cs (by rw [hd, hc])

theorem natDigits_inj (a : Nat) : ∀ b, natDigits a = natDigits b → a = b := by
  induction a using natDigits.induct with
  | case1 a ha =>
    intro b h
    rw [natDigits, if_pos ha] at h
    rw [natDigits] at h
    split at h
    · exact digitChar_injOn a ha b (by assumption) (by simpa using h)
    · exfalso
      rcases hd : natDigits (b / 10) with _ | ⟨c, cs⟩
      · exact natDigits_ne_nil _ hd
      · rw [hd] at h
        have hlen := congrArg List.length h
        simp [List.length_append] at hlen
  | case2 a ha ih =>
    intro b h
    rw [natDigits, if_neg ha] at h
    nth_rewrite 2 [natDigits] at h
    split at h
    · exfalso
      rcases hd : natDigits (a / 10) with _ | ⟨c, cs⟩
      · exact natDigits_ne_nil _ hd
      · rw [hd] at h
        have hlen := congrArg List.length h
        simp [List.length_append] at hlen
    · rename_i hb
      have hinj := List.append_inj' h (by simp)
      have hdiv : a / 10 = b / 10 := ih (b / 10) hinj.1
      have hmod : a % 10 = b % 10 :=
        digitChar_injOn (a % 10) (Nat.mod_lt a (by omega)) (b % 10)
          (Nat.mod_lt b (by omega)) (by simpa using hinj.2)
      omega

theorem fmtInt_inj (m n : Int) (h : fmtInt m = fmtInt n) : m = n := by
  rw [fmtInt, fmtInt] at h
  split at h <;> split at h
  · rename_i hm hn
    have hd : natDigits m.natAbs = natDigits n.natAbs := by
      have := congrArg String.data h
      simpa using this
    have := natDigits_inj m.natAbs n.natAbs hd
    omega
  · rename_i hm hn
    exfalso
    have := congrArg String.data h
    simp at this
    exact natDigits_ne_minus_cons n.toNat (natDigits m.natAbs) this.symm
  · rename_i hm hn
    exfalso
    have := congrArg String.data h
    simp at this
    exact natDigits_ne_minus_cons m.toNat (natDigits n.natAbs) this
  · rename_i hm hn
    have hd : natDigits m.toNat = natDigits n.toNat := by
      have := congrArg String.data h
      simpa using this
    have := natDigits_inj m.toNat n.toNat hd
    omega

/-- C7 counterexample: two successful `SaveFile` calls at the same
UnixNano instant (here both at instant 7) return the *same* id, not
distinct ones — the id is a pure function of the timestamp, so the two
saves target the same blob path. -/
theorem saveFile_same_instant_ids_collide :
    (saveFile (newStorage "dir" []) "a" [1] 7 7 none).1.isSome = true ∧
    (saveFile (saveFile (newStorage "dir" []) "a" [1] 7 7 none).2
        "b" [2] 7 7 none).1.isSome = true ∧
    (saveFile (newStorage "dir" []) "a" [1] 7 7 none).1
      = (saveFile (saveFile (newStorage "dir" []) "a" [1] 7 7 none).2
          "b" [2] 7 7 none).1 :=
  ⟨rfl, rfl, rfl⟩

/-- C7 (amended): identifiers returned by successful `SaveFile` calls
are distinct exactly when the generating UnixNano instants are
distinct; in particular same-instant calls collide (same id, same blob
path), and uniqueness across the process's lifetime holds only for
saves at pairwise distinct instants. -/
theorem saveFile_ids_distinct_iff_instants_distinct
    (s1 s2 : StorageState) (f1 f2 : String) (d1 d2 : Bytes)
    (n1 n2 t1 t2 : Int) (w1 w2 : Option Disk) (id1 id2 : String)
    (h1 : (saveFile s1 f1 d1 n1 t1 w1).1 = some id1)
    (h2 : (saveFile s2 f2 d2 n2 t2 w2).1 = some id2) :
    id1 ≠ id2 ↔ n1 ≠ n2 := by
  have e1 : id1 = fmtInt n1 := by
    cases w1 with
    | some d => simp [saveFile] at h1
    | none => simpa [saveFile] using h1.symm
  have e2 : id2 = fmtInt n2 := by
    cases w2 with
    | some d => simp [saveFile] at h2
    | none => simpa [saveFile] using h2.symm
  subst e1 e2
  constructor
  · intro hne heq
    exact hne (heq ▸ rfl)
  · intro hne heq
    exact hne (fmtInt_inj n1 n2 heq)

/-- C7 witness (for the amended claim): saves at instants 7 and 8 get
distinct ids. -/
theorem saveFile_ids_distinct_iff_instants_distinct_witness :
    fmtInt 7 ≠ fmtInt 8 :=
  (saveFile_ids_distinct_iff_instants_distinct
    (newStorage "dir" []) (newStorage "dir" []) "a" "b" [1] [2] 7 8 7 8
    none none (fmtInt 7) (fmtInt 8) rfl rfl).mpr (by decide)

/-! ### C3: pagination coverage -/

theorem listLoop_eq (l : List FileMetadata) :
    ∀ (i startI endI : Int) (acc : List FileMetadata),
      listLoop l i startI endI acc
        = acc ++ ((l.take (endI - i).toNat).drop (startI - i).toNat) := by
  induction l with
  | nil =>
    intro i s e acc
    simp [listLoop]
  | cons f rest ih =>
    intro i s e acc
    simp only [listLoop]
    by_cases hc : s ≤ i ∧ i < e
    · rw [if_pos hc]
      by_cases hbreak : e ≤ i + 1
      · rw [if_pos hbreak]
        have h1 : (e - i).toNat = 1 := by omega
        have h2 : (s - i).toNat = 0 := by omega
        rw [h1, h2]
        simp
      · rw [if_neg hbreak, ih]
        have h1 : (e - i).toNat = (e - (i + 1)).toNat + 1 := by omega
        have h2 : (s - i).toNat = 0 := by omega
        have h3 : (s - (i + 1)).toNat = 0 := by omega
        rw [h1, h2, h3, List.take_succ_cons, List.drop_zero, List.drop_zero]
        simp
    · rw [if_neg hc]
      by_cases hbreak : e ≤ i + 1
      · rw [if_pos hbreak]
        have hslice : ((f :: rest).take (e - i).toNat).drop (s - i).toNat = [] := by
          apply List.drop_eq_nil_of_le
          rw [List.length_take]
          simp only [List.length_cons]
          omega
        rw [hslice, List.append_nil]
      · rw [if_neg hbreak, ih]
        have h1 : (e - i).toNat = (e - (i + 1)).toNat + 1 := by omega
        have h2 : (s - i).toNat = (s - (i + 1)).toNat + 1 := by omega
        rw [h1, h2, List.take_succ_cons, List.drop_succ_cons]

theorem slice_append_drop {α : Type} (l : List α) (a b : Nat)
    (hb : b ≤ l.length) (h : a ≤ b ∨ (l.length ≤ a ∧ l.length ≤ b)) :
    (l.take b).drop a ++ l.drop b = l.drop a := by
  rcases h with h | ⟨h1, h2⟩
  · conv_rhs => rw [← List.take_append_drop b l]
    rw [List.drop_append_of_le_length (by rw [List.length_take]; omega)]
  · have hb' : b = l.length := le_antisymm hb h2
    subst hb'
    rw [List.take_length, List.drop_eq_nil_of_le (le_refl l.length),
      List.append_nil, List.drop_eq_nil_of_le h1]

theorem slice_cover {α : Type} (l : List α) (p : Nat) :
    ∀ (m q : Nat), l.length ≤ (q + m) * p →
      (List.range m).flatMap
          (fun t => (l.take (min ((q + t + 1) * p) l.length)).drop ((q + t) * p))
        = l.drop (q * p) := by
  intro m
  induction m with
  | zero =>
    intro q h
    rw [List.range_zero, List.flatMap_nil,
      List.drop_eq_nil_of_le (by simpa using h)]
  | succ m ih =>
    intro q h
    rw [List.range_succ_eq_map, List.flatMap_cons, List.flatMap_map]
    have hfun :
        (fun t => (l.take (min ((q + Nat.succ t + 1) * p) l.length)).drop
            ((q + Nat.succ t) * p))
          = (fun t => (l.take (min ((q + 1 + t + 1) * p) l.length)).drop
            ((q + 1 + t) * p)) := by
      funext t
      have e1 : q + Nat.succ t = q + 1 + t := by omega
      rw [e1]
    rw [hfun, ih (q + 1) (by rw [show (q + 1) + m = q + (m + 1) by omega]; exact h)]
    have hdrop : l.drop ((q + 1) * p)
        = l.drop (min ((q + 1) * p) l.length) := by
      rcases le_total ((q + 1) * p) l.length with hle | hle
      · rw [min_eq_left hle]
      · rw [min_eq_right hle, List.drop_eq_nil_of_le hle,
          List.drop_eq_nil_of_le (le_refl l.length)]
    have hmul : q * p ≤ (q + 1) * p := Nat.mul_le_mul_right p (by omega)
    simp only [Nat.add_zero]
    rw [hdrop]
    apply slice_append_drop
    · exact min_le_right _ _
    · rcases le_total (q * p) l.length with hle | hle
      · left
        exact le_min hmul hle
      · right
        exact ⟨hle, le_min (le_trans hle hmul) (le_refl _)⟩

theorem lt_of_lt_numPages (N p j : Nat) (hp : 0 < p) (hj : j < numPages N p) :
    j * p < N := by
  rw [numPages] at hj
  have h1 := Nat.div_add_mod (N + p - 1) p
  have h2 := Nat.mod_lt (N + p - 1) hp
  have h3 : (j + 1) * p ≤ ((N + p - 1) / p) * p := Nat.mul_le_mul_right p hj
  have h4 : (j + 1) * p = j * p + p := by ring
  rw [Nat.mul_comm p ((N + p - 1) / p)] at h1
  omega

theorem numPages_mul_ge (N p : Nat) (hp : 0 < p) : N ≤ numPages N p * p := by
  rw [numPages]
  have h1 := Nat.div_add_mod (N + p - 1) p
  have h2 := Nat.mod_lt (N + p - 1) hp
  rw [Nat.mul_comm p ((N + p - 1) / p)] at h1
  omega

theorem int32ofInt_eq_self (n : Int) (h0 : 0 ≤ n) (h31 : n < 2 ^ 31) :
    int32ofInt n = n := by
  rw [int32ofInt]
  have : (n + 2 ^ 31) % 2 ^ 32 = n + 2 ^ 31 :=
    Int.emod_eq_of_lt (by omega) (by omega)
  omega

theorem listFiles_page_eq (catalog : List FileMetadata) (p : Nat) (k : Nat)
    (hk1 : 1 ≤ k) (hkN : (k - 1) * p ≤ catalog.length) :
    listFiles catalog (p : Int) (k : Int)
      = some ((catalog.take (min (k * p) catalog.length)).drop ((k - 1) * p),
          int32ofInt (catalog.length : Int)) := by
  obtain ⟨j, rfl⟩ : ∃ j, k = j + 1 := ⟨k - 1, by omega⟩
  simp only [Nat.add_sub_cancel] at hkN ⊢
  simp only [listFiles]
  have estart : (p : Int) * (((j + 1 : Nat) : Int) - 1) = ((j * p : Nat) : Int) := by
    push_cast
    ring
  have eraw : (p : Int) * (((j + 1 : Nat) : Int) - 1) + (p : Int)
      = (((j + 1) * p : Nat) : Int) := by
    push_cast
    ring
  rw [eraw, estart]
  have eend : (if (((j + 1) * p : Nat) : Int) > (catalog.length : Int)
        then (catalog.length : Int) else (((j + 1) * p : Nat) : Int))
      = ((min ((j + 1) * p) catalog.length : Nat) : Int) := by
    rcases le_total ((j + 1) * p) catalog.length with hle | hle
    · rw [if_neg (by exact_mod_cast not_lt.mpr hle), min_eq_left hle]
    · rcases Nat.eq_or_lt_of_le hle with heq | hlt
      · rw [heq]
        simp
      · rw [if_pos (by exact_mod_cast hlt), min_eq_right hle]
  rw [eend]
  have hmem : (j * p : Nat) ≤ min ((j + 1) * p) catalog.length :=
    le_min (Nat.mul_le_mul_right p (by omega)) hkN
  have hge : ((j * p : Nat) : Int)
      ≤ ((min ((j + 1) * p) catalog.length : Nat) : Int) :=
    (Nat.cast_le (α := Int)).mpr hmem
  rw [if_neg (by omega), listLoop_eq]
  simp only [Int.sub_zero, Int.toNat_natCast, List.nil_append]

/-- C3: for any catalog snapshot with `N` entries whose identifiers are
pairwise distinct (it is the value list of a map keyed by id) and any
`pageSize > 0`, every page `1 .. ceil(N / pageSize)` of `ListFiles`
returns normally reporting `totalCount = N`, and the concatenation of
the entry lists of those pages is exactly the catalog: its size is `N`
and its identifiers contain no duplicates.  (`N < 2^31` keeps the
`int32` total count exact.) -/
theorem listFiles_pagination_coverage (catalog : List FileMetadata)
    (hnodup : (catalog.map FileMetadata.id).Nodup)
    (hN : (catalog.length : Int) < 2 ^ 31)
    (ps : Int) (hps : 0 < ps) :
    (∀ k : Nat, 1 ≤ k → k ≤ numPages catalog.length ps.toNat →
      listFiles catalog ps (k : Int)
        = some (pageEntries catalog ps (k : Int), (catalog.length : Int))) ∧
    ((List.range (numPages catalog.length ps.toNat)).flatMap
        (fun j => pageEntries catalog ps ((j : Int) + 1))).length
      = catalog.length ∧
    (((List.range (numPages catalog.length ps.toNat)).flatMap
        (fun j => pageEntries catalog ps ((j : Int) + 1))).map
      FileMetadata.id).Nodup := by
  obtain ⟨p, rfl⟩ : ∃ p : Nat, ps = (p : Int) :=
    ⟨ps.toNat, (Int.toNat_of_nonneg hps.le).symm⟩
  have hp : 0 < p := by exact_mod_cast hps
  rw [Int.toNat_natCast]
  have hpage : ∀ k : Nat, 1 ≤ k → k ≤ numPages catalog.length p →
      listFiles catalog (p : Int) (k : Int)
        = some ((catalog.take (min (k * p) catalog.length)).drop ((k - 1) * p),
            int32ofInt (catalog.length : Int)) := by
    intro k hk1 hk2
    apply listFiles_page_eq catalog p k hk1
    have : k - 1 < numPages catalog.length p := by omega
    exact (lt_of_lt_numPages catalog.length p (k - 1) hp this).le
  have hentries : ∀ k : Nat, 1 ≤ k → k ≤ numPages catalog.length p →
      pageEntries catalog (p : Int) (k : Int)
        = (catalog.take (min (k * p) catalog.length)).drop ((k - 1) * p) := by
    intro k hk1 hk2
    simp only [pageEntries]
    rw [hpage k hk1 hk2]
    rfl
  have hint32 : int32ofInt (catalog.length : Int) = (catalog.length : Int) :=
    int32ofInt_eq_self _ (by positivity) hN
  have hunion :
      (List.range (numPages catalog.length p)).flatMap
          (fun j => pageEntries catalog (p : Int) ((j : Int) + 1))
        = catalog := by
    have hcongr : (List.range (numPages catalog.length p)).flatMap
          (fun j => pageEntries catalog (p : Int) ((j : Int) + 1))
        = (List.range (numPages catalog.length p)).flatMap
          (fun j => (catalog.take (min ((j + 1) * p) catalog.length)).drop
            (j * p)) := by
      apply List.flatMap_congr
      intro j hj
      rw [List.mem_range] at hj
      have e1 : ((j : Int) + 1) = ((j + 1 : Nat) : Int) := by push_cast; ring
      rw [e1, hentries (j + 1) (by omega) (by omega)]
      simp
    rw [hcongr]
    have := slice_cover catalog p (numPages catalog.length p) 0
      (by simpa using numPages_mul_ge catalog.length p hp)
    simpa using this
  refine ⟨?_, ?_, ?_⟩
  · intro k hk1 hk2
    rw [hpage k hk1 hk2, hentries k hk1 hk2, hint32]
  · rw [hunion]
  · rw [hunion]
    exact hnodup

/-- C3 witness: a two-entry catalog with distinct ids, `pageSize = 1`:
both pages succeed with `totalCount = 2` and their union is the whole
catalog. -/
theorem listFiles_pagination_coverage_witness :
    ((List.range (numPages
        ([⟨"1", "a", 1, 0, 0⟩, ⟨"2", "b", 1, 0, 0⟩] :
          List FileMetadata).length (1 : Int).toNat)).flatMap
      (fun j => pageEntries [⟨"1", "a", 1, 0, 0⟩, ⟨"2", "b", 1, 0, 0⟩]
        1 ((j : Int) + 1))).length
      = ([⟨"1", "a", 1, 0, 0⟩, ⟨"2", "b", 1, 0, 0⟩] :
          List FileMetadata).length :=
  (listFiles_pagination_coverage
    [⟨"1", "a", 1, 0, 0⟩, ⟨"2", "b", 1, 0, 0⟩]
    (by decide) (by decide) 1 (by decide)).2.1

end Tages
